import Mathlib

/-!
Shallow embedding of the libbitcoin `transaction_indexer`
(`src/src/transaction_indexer.cpp`, `src/include/bitcoin/transaction_indexer.hpp`).

Modelling conventions:
* `hash_digest` is modelled as `Nat` (an opaque value-equality key);
  `null_hash` (the all-zero digest) is modelled as `0`.
* `uint32_t` / `uint64_t` values that only serve as keys or sentinels are
  modelled as `Nat`; the sentinels `max_index` and `max_height` are the
  concrete value `2 ^ 32 - 1` of `std::numeric_limits<uint32_t>::max()`.
* The two `std::unordered_multimap`s are modelled as association lists;
  `equal_range` becomes a filter on the key, `emplace` appends at the end,
  and `erase(it)` removes the entry at the iterator's position.
* `BITCOIN_ASSERT` / `BITCOIN_ASSERT_MSG` terminate the process in a debug
  build and are no-ops otherwise.  Every operation of the embedding returns,
  besides the state the release build would compute, an `assertOk` flag that
  is the conjunction of all assertion conditions evaluated along the run:
  `assertOk = false` means a debug build aborts (and in particular never
  reaches any later completion-handler invocation).
* Completion handlers (`std::function` callbacks) are not modelled as
  functions; instead each operation returns the list of arguments of every
  handler invocation its body performs, in order.
-/

namespace LibBitcoin

/-- A point `{hash, index}` identifying a transaction input or output
(`input_point` and `output_point` are the same underlying struct). -/
structure Point where
  hash : Nat
  index : Nat
deriving DecidableEq, Repr

abbrev input_point := Point
abbrev output_point := Point

/-- Modelled from the spec: a payment address is an opaque value-equality
key extracted from a script (`address.hpp` is not part of the slice). -/
abbrev payment_address := Nat

/-- `constants.hpp`: the all-zero hash digest, modelled as `0`. -/
def null_hash : Nat := 0

/-- `constants.hpp`: `max_index = std::numeric_limits<uint32_t>::max()`. -/
def max_index : Nat := 2 ^ 32 - 1

/-- `indexer_history_fetched`:
`constexpr uint32_t max_height = std::numeric_limits<uint32_t>::max()`. -/
def max_height : Nat := 2 ^ 32 - 1

/-- `transaction_indexer.hpp`: `struct spend_info_type`. -/
structure spend_info_type where
  point : input_point
  previous_output : output_point
deriving DecidableEq, Repr

/-- `transaction_indexer.hpp`: `struct output_info_type`. -/
structure output_info_type where
  point : output_point
  value : Nat
deriving DecidableEq, Repr

/-- Modelled from the spec: a transaction input carries a script from which
`extract` may resolve a payment address (`extract(payaddr, input.script)`
is an external collaborator, §6 of the spec); the resolved address, when
any, is modelled directly as `script : Option payment_address`.  The input
also names the `previous_output` it consumes. -/
structure transaction_input_type where
  script : Option payment_address
  previous_output : output_point
deriving DecidableEq, Repr

/-- Modelled from the spec: a transaction output carries a script (same
modelling as for inputs) and a 64-bit `value`. -/
structure transaction_output_type where
  script : Option payment_address
  value : Nat
deriving DecidableEq, Repr

/-- Modelled from the spec: `hash_transaction tx` is an opaque digest of the
transaction; the model carries it as a field `hash`. -/
structure transaction_type where
  hash : Nat
  inputs : List transaction_input_type
  outputs : List transaction_output_type
deriving DecidableEq, Repr

/-- `addr -> spend` multimap, modelled as an association list. -/
abbrev spends_multimap := List (payment_address × spend_info_type)

/-- `addr -> output` multimap, modelled as an association list. -/
abbrev outputs_multimap := List (payment_address × output_info_type)

/-- The two private multimaps of `transaction_indexer`. -/
structure indexer_state where
  spends_map_ : spends_multimap
  outputs_map_ : outputs_multimap
deriving DecidableEq, Repr

/-- `get_info_list<InfoList>(payaddr, map)`: collect the mapped values of
every entry of the `equal_range` of `payaddr`. -/
def get_info_list (payaddr : payment_address)
    (map : List (payment_address × α)) : List α :=
  (map.filter (fun e => decide (e.1 = payaddr))).map Prod.snd

/-- `find_entry<Point>(key, value_point, map)`: scan the `equal_range` of
`key` for the entry whose mapped value's `.point` equals `value_point`;
the result is the position of that entry (`none` plays `map.end()`).
The projection `pt` plays the template's access `it->second.point`. -/
def find_entry (pt : α → Point) (key : payment_address) (value_point : Point) :
    List (payment_address × α) → Option Nat
  | [] => none
  | e :: rest =>
    if e.1 = key ∧ pt e.2 = value_point then some 0
    else (find_entry pt key value_point rest).map (· + 1)

/-- `index_does_not_exist(key, value_point, map)`. -/
def index_does_not_exist (pt : α → Point) (key : payment_address)
    (value_point : Point) (map : List (payment_address × α)) : Bool :=
  (find_entry pt key value_point map).isNone

/-- The arguments with which `do_query` invokes its `handle_query` callback:
`arg2` and `arg3` are the values passed in the second and third argument
positions, typed as the source constructs them.  NOTE: the declared
`query_handler` signature in `transaction_indexer.hpp` is
`(ec, spends : spend_info_list, outputs : output_info_list)`. -/
structure do_query_call where
  ec : Nat
  arg2 : List output_info_type
  arg3 : List spend_info_type
deriving DecidableEq, Repr

/-- `transaction_indexer::do_query`: invokes the handler with
`(std::error_code(), get_info_list<output_info_list>(payaddr, outputs_map_),
get_info_list<spend_info_list>(payaddr, spends_map_))` — the outputs list in
the second argument position and the spends list in the third. -/
def do_query (payaddr : payment_address) (st : indexer_state) : do_query_call :=
  { ec := 0
    arg2 := get_info_list payaddr st.outputs_map_
    arg3 := get_info_list payaddr st.spends_map_ }

/-- Result of `do_index` / `do_deindex`: the state a release build leaves
behind, the conjunction of all `BITCOIN_ASSERT` conditions evaluated
(false means a debug build aborts), and the arguments of every invocation
of the operation's completion handler. -/
structure op_result where
  state : indexer_state
  assertOk : Bool
  handler_calls : List Nat
deriving DecidableEq, Repr

/-- The inputs loop of `transaction_indexer::do_index` (`i` is the loop
counter): for each input whose script resolves to an address, assert that
the point is not yet present, then `emplace` the spend entry. -/
def do_index_spends (tx_hash : Nat) :
    List transaction_input_type → Nat → spends_multimap → Bool →
    spends_multimap × Bool
  | [], _, m, ok => (m, ok)
  | input :: rest, i, m, ok =>
    match input.script with
    | none => do_index_spends tx_hash rest (i + 1) m ok
    | some payaddr =>
      let point : input_point := ⟨tx_hash, i⟩
      let ok' := ok && index_does_not_exist (fun v => v.point) payaddr point m
      do_index_spends tx_hash rest (i + 1)
        (m ++ [(payaddr, ⟨point, input.previous_output⟩)]) ok'

/-- The outputs loop of `transaction_indexer::do_index`. -/
def do_index_outputs (tx_hash : Nat) :
    List transaction_output_type → Nat → outputs_multimap → Bool →
    outputs_multimap × Bool
  | [], _, m, ok => (m, ok)
  | output :: rest, i, m, ok =>
    match output.script with
    | none => do_index_outputs tx_hash rest (i + 1) m ok
    | some payaddr =>
      let point : output_point := ⟨tx_hash, i⟩
      let ok' := ok && index_does_not_exist (fun v => v.point) payaddr point m
      do_index_outputs tx_hash rest (i + 1)
        (m ++ [(payaddr, ⟨point, output.value⟩)]) ok'

/-- `transaction_indexer::do_index`: runs the inputs loop, then the outputs
loop.  `handler_calls = []` because the body of `do_index` contains no
invocation of its `handle_index` parameter. -/
def do_index (tx : transaction_type) (st : indexer_state) : op_result :=
  let s := do_index_spends tx.hash tx.inputs 0 st.spends_map_ true
  let o := do_index_outputs tx.hash tx.outputs 0 st.outputs_map_ s.2
  { state := ⟨s.1, o.1⟩, assertOk := o.2, handler_calls := [] }

/-- The inputs loop of `transaction_indexer::do_deindex`: find the entry
(asserting it exists), `erase` it, then assert no duplicate remains.  When
`find_entry` comes back empty the source would call `erase(map.end())`,
which is undefined behaviour; the model leaves the map unchanged there and
records the failed assertion. -/
def do_deindex_spends (tx_hash : Nat) :
    List transaction_input_type → Nat → spends_multimap → Bool →
    spends_multimap × Bool
  | [], _, m, ok => (m, ok)
  | input :: rest, i, m, ok =>
    match input.script with
    | none => do_deindex_spends tx_hash rest (i + 1) m ok
    | some payaddr =>
      let point : input_point := ⟨tx_hash, i⟩
      match find_entry (fun v => v.point) payaddr point m with
      | none => do_deindex_spends tx_hash rest (i + 1) m false
      | some idx =>
        let m' := m.eraseIdx idx
        let ok' := ok && index_does_not_exist (fun v => v.point) payaddr point m'
        do_deindex_spends tx_hash rest (i + 1) m' ok'

/-- The outputs loop of `transaction_indexer::do_deindex`. -/
def do_deindex_outputs (tx_hash : Nat) :
    List transaction_output_type → Nat → outputs_multimap → Bool →
    outputs_multimap × Bool
  | [], _, m, ok => (m, ok)
  | output :: rest, i, m, ok =>
    match output.script with
    | none => do_deindex_outputs tx_hash rest (i + 1) m ok
    | some payaddr =>
      let point : output_point := ⟨tx_hash, i⟩
      match find_entry (fun v => v.point) payaddr point m with
      | none => do_deindex_outputs tx_hash rest (i + 1) m false
      | some idx =>
        let m' := m.eraseIdx idx
        let ok' := ok && index_does_not_exist (fun v => v.point) payaddr point m'
        do_deindex_outputs tx_hash rest (i + 1) m' ok'

/-- `transaction_indexer::do_deindex`: runs the inputs loop, then the
outputs loop.  `handler_calls = []` because the body of `do_deindex`
contains no invocation of its `handle_deindex` parameter. -/
def do_deindex (tx : transaction_type) (st : indexer_state) : op_result :=
  let s := do_deindex_spends tx.hash tx.inputs 0 st.spends_map_ true
  let o := do_deindex_outputs tx.hash tx.outputs 0 st.outputs_map_ s.2
  { state := ⟨s.1, o.1⟩, assertOk := o.2, handler_calls := [] }

/-- `blockchain::history_row`. -/
structure history_row where
  output : output_point
  output_height : Nat
  value : Nat
  spend : input_point
  spend_height : Nat
deriving DecidableEq, Repr

/-- The row `indexer_history_fetched` appends for an unconfirmed output:
`{output_info.point, 0, output_info.value, {null_hash, max_index},
max_height}`. -/
def unconfirmed_row (output_info : output_info_type) : history_row :=
  { output := output_info.point
    output_height := 0
    value := output_info.value
    spend := ⟨null_hash, max_index⟩
    spend_height := max_height }

/-- The "Just add in outputs" loop of `indexer_history_fetched`: for each
unconfirmed output, assert (against the whole accumulated list) that its
point is not an existing row's output, then append `unconfirmed_row`. -/
def add_outputs : List history_row → List output_info_type → Bool →
    List history_row × Bool
  | history, [], ok => (history, ok)
  | history, output_info :: rest, ok =>
    let ok' := ok && history.all (fun row => decide (row.output ≠ output_info.point))
    add_outputs (history ++ [unconfirmed_row output_info]) rest ok'

/-- The inner scan of the "Now mark spends" loop: find the first row whose
`output` equals the spend's `previous_output`, assert it is unspent
(`spend_height == max_height` and `spend == {null_hash, max_index}`), set
`spend := point` and `spend_height := 0`, and `break`.  `none` models the
loop ending with `found == false`; the `Bool` is the conjunction of the two
assertion conditions at the matched row. -/
def mark_spend_row (spend_info : spend_info_type) :
    List history_row → Option (List history_row × Bool)
  | [] => none
  | row :: rest =>
    if row.output = spend_info.previous_output then
      some ({ row with spend := spend_info.point, spend_height := 0 } :: rest,
        decide (row.spend_height = max_height) &&
          decide (row.spend = (⟨null_hash, max_index⟩ : Point)))
    else
      (mark_spend_row spend_info rest).map (fun r => (row :: r.1, r.2))

/-- The "Now mark spends" loop: `none` from the scan means
`BITCOIN_ASSERT_MSG(found, ...)` fails and the spend is dropped. -/
def mark_spends : List history_row → List spend_info_type → Bool →
    List history_row × Bool
  | history, [], ok => (history, ok)
  | history, spend_info :: rest, ok =>
    match mark_spend_row spend_info history with
    | none => mark_spends history rest (ok && false)
    | some r => mark_spends r.1 rest (ok && r.2)

/-- The outcome of `indexer_history_fetched`: the assertion flag, and the
`(ec, history)` arguments passed to `handle_fetch` (which a debug build
only reaches when `assertOk = true`). -/
structure fetch_result where
  assertOk : Bool
  ec : Nat
  history : List history_row
deriving DecidableEq, Repr

/-- `indexer_history_fetched(ec, outputs, spends, history, handle_fetch)`:
on error, deliver the error with an empty list; otherwise append the
unconfirmed outputs, mark the unconfirmed spends, and deliver the result
with a success code. -/
def indexer_history_fetched (ec : Nat) (outputs : List output_info_type)
    (spends : List spend_info_type) (history : List history_row) :
    fetch_result :=
  if ec ≠ 0 then { assertOk := true, ec := ec, history := [] }
  else
    let r1 := add_outputs history outputs true
    let r2 := mark_spends r1.1 spends r1.2
    { assertOk := r2.2, ec := 0, history := r2.1 }

/-- The position in `history` of the first row whose `output` equals the
spend's `previous_output` — the row `mark_spend_row` writes. -/
def matchIdx (spend_info : spend_info_type) : List history_row → Option Nat
  | [] => none
  | row :: rest =>
    if row.output = spend_info.previous_output then some 0
    else (matchIdx spend_info rest).map (· + 1)

/-- The spend entries `do_index` adds for the inputs of a transaction,
starting at loop position `i`. -/
def spend_entries (tx_hash : Nat) :
    List transaction_input_type → Nat → List (payment_address × spend_info_type)
  | [], _ => []
  | input :: rest, i =>
    match input.script with
    | none => spend_entries tx_hash rest (i + 1)
    | some payaddr =>
      (payaddr, ⟨⟨tx_hash, i⟩, input.previous_output⟩) ::
        spend_entries tx_hash rest (i + 1)

/-- The output entries `do_index` adds for the outputs of a transaction,
starting at loop position `i`. -/
def output_entries (tx_hash : Nat) :
    List transaction_output_type → Nat → List (payment_address × output_info_type)
  | [], _ => []
  | output :: rest, i =>
    match output.script with
    | none => output_entries tx_hash rest (i + 1)
    | some payaddr =>
      (payaddr, ⟨⟨tx_hash, i⟩, output.value⟩) ::
        output_entries tx_hash rest (i + 1)

/-! Helper lemmas about `find_entry`, `eraseIdx` and the entry lists. -/

theorem find_entry_eq_none_iff (pt : α → Point) (key : payment_address)
    (p : Point) (l : List (payment_address × α)) :
    find_entry pt key p l = none ↔ ∀ e ∈ l, ¬(e.1 = key ∧ pt e.2 = p) := by
  induction l with
  | nil => simp [find_entry]
  | cons e rest ih =>
    by_cases h : e.1 = key ∧ pt e.2 = p
    · simp [find_entry, h]
    · rw [find_entry, if_neg h, Option.map_eq_none', ih]
      constructor
      · intro hr e' he'
        rcases List.mem_cons.1 he' with rfl | he'
        · exact h
        · exact hr e' he'
      · intro hr e' he'
        exact hr e' (List.mem_cons_of_mem _ he')

theorem find_entry_append (pt : α → Point) (key : payment_address) (p : Point)
    (m l : List (payment_address × α)) (hm : find_entry pt key p m = none) :
    find_entry pt key p (m ++ l) =
      (find_entry pt key p l).map (· + m.length) := by
  induction m with
  | nil => cases h : find_entry pt key p l <;> simp [h]
  | cons e rest ih =>
    have he : ¬(e.1 = key ∧ pt e.2 = p) := by
      intro h
      rw [find_entry, if_pos h] at hm
      cases hm
    rw [find_entry, if_neg he] at hm
    have hrest : find_entry pt key p rest = none := by
      cases h : find_entry pt key p rest with
      | none => rfl
      | some v => rw [h] at hm; cases hm
    rw [List.cons_append, find_entry, if_neg he, ih hrest]
    cases find_entry pt key p l with
    | none => rfl
    | some v => simp [List.length_cons]; omega

theorem eraseIdx_append_cons (m : List β) (a : β) (l : List β) :
    (m ++ a :: l).eraseIdx m.length = m ++ l := by
  induction m with
  | nil => simp [List.eraseIdx]
  | cons e rest ih => simp [List.eraseIdx, ih]

theorem spend_entries_mem (txh : Nat) (l : List transaction_input_type)
    (i : Nat) :
    ∀ e ∈ spend_entries txh l i, e.2.point.hash = txh ∧ i ≤ e.2.point.index := by
  induction l generalizing i with
  | nil => intro e he; simp [spend_entries] at he
  | cons input rest ih =>
    intro e he
    cases hs : input.script with
    | none =>
      rw [spend_entries, hs] at he
      have h := ih (i + 1) e he
      exact ⟨h.1, Nat.le_of_succ_le h.2⟩
    | some a =>
      rw [spend_entries, hs] at he
      rcases List.mem_cons.1 he with h | h
      · subst h; exact ⟨rfl, Nat.le_refl i⟩
      · have h' := ih (i + 1) e h
        exact ⟨h'.1, Nat.le_of_succ_le h'.2⟩

theorem output_entries_mem (txh : Nat) (l : List transaction_output_type)
    (i : Nat) :
    ∀ e ∈ output_entries txh l i, e.2.point.hash = txh ∧ i ≤ e.2.point.index := by
  induction l generalizing i with
  | nil => intro e he; simp [output_entries] at he
  | cons output rest ih =>
    intro e he
    cases hs : output.script with
    | none =>
      rw [output_entries, hs] at he
      have h := ih (i + 1) e he
      exact ⟨h.1, Nat.le_of_succ_le h.2⟩
    | some a =>
      rw [output_entries, hs] at he
      rcases List.mem_cons.1 he with h | h
      · subst h; exact ⟨rfl, Nat.le_refl i⟩
      · have h' := ih (i + 1) e h
        exact ⟨h'.1, Nat.le_of_succ_le h'.2⟩

/-! Behaviour of the `do_index` / `do_deindex` loops. -/

theorem do_index_spends_fst (txh : Nat) (l : List transaction_input_type)
    (i : Nat) (m : spends_multimap) (ok : Bool) :
    (do_index_spends txh l i m ok).1 = m ++ spend_entries txh l i := by
  induction l generalizing i m ok with
  | nil => simp [do_index_spends, spend_entries]
  | cons input rest ih =>
    cases hs : input.script with
    | none => simp [do_index_spends, spend_entries, hs, ih]
    | some a =>
      simp [do_index_spends, spend_entries, hs, ih]

theorem do_index_outputs_fst (txh : Nat) (l : List transaction_output_type)
    (i : Nat) (m : outputs_multimap) (ok : Bool) :
    (do_index_outputs txh l i m ok).1 = m ++ output_entries txh l i := by
  induction l generalizing i m ok with
  | nil => simp [do_index_outputs, output_entries]
  | cons output rest ih =>
    cases hs : output.script with
    | none => simp [do_index_outputs, output_entries, hs, ih]
    | some a =>
      simp [do_index_outputs, output_entries, hs, ih]

theorem do_index_spends_snd (txh : Nat) (l : List transaction_input_type)
    (i : Nat) (m : spends_multimap) (ok : Bool)
    (h : ∀ e ∈ spend_entries txh l i,
      find_entry (fun v => v.point) e.1 e.2.point m = none) :
    (do_index_spends txh l i m ok).2 = ok := by
  induction l generalizing i m ok with
  | nil => simp [do_index_spends]
  | cons input rest ih =>
    cases hs : input.script with
    | none =>
      rw [spend_entries, hs] at h
      rw [do_index_spends, hs]
      exact ih (i + 1) m ok h
    | some a =>
      rw [spend_entries, hs] at h
      have hhead := h _ (List.mem_cons_self _ _)
      have htail : ∀ e ∈ spend_entries txh rest (i + 1),
          find_entry (fun v : spend_info_type => v.point) e.1 e.2.point
            (m ++ [(a, ⟨⟨txh, i⟩, input.previous_output⟩)]) = none := by
        intro e he
        rw [find_entry_eq_none_iff]
        intro x hx
        rcases List.mem_append.1 hx with hxm | hxs
        · exact (find_entry_eq_none_iff _ _ _ _).1
            (h e (List.mem_cons_of_mem _ he)) x hxm
        · rcases List.mem_singleton.1 hxs with rfl
          rintro ⟨-, hpt⟩
          have hge := (spend_entries_mem txh rest (i + 1) e he).2
          have hidx : e.2.point.index = i := by rw [← hpt]
          omega
      rw [do_index_spends, hs]
      have hok : index_does_not_exist (fun v : spend_info_type => v.point)
          a ⟨txh, i⟩ m = true := by
        simp [index_does_not_exist, hhead]
      simp only [hok, Bool.and_true]
      exact ih (i + 1) _ ok htail

theorem do_index_outputs_snd (txh : Nat) (l : List transaction_output_type)
    (i : Nat) (m : outputs_multimap) (ok : Bool)
    (h : ∀ e ∈ output_entries txh l i,
      find_entry (fun v => v.point) e.1 e.2.point m = none) :
    (do_index_outputs txh l i m ok).2 = ok := by
  induction l generalizing i m ok with
  | nil => simp [do_index_outputs]
  | cons output rest ih =>
    cases hs : output.script with
    | none =>
      rw [output_entries, hs] at h
      rw [do_index_outputs, hs]
      exact ih (i + 1) m ok h
    | some a =>
      rw [output_entries, hs] at h
      have hhead := h _ (List.mem_cons_self _ _)
      have htail : ∀ e ∈ output_entries txh rest (i + 1),
          find_entry (fun v : output_info_type => v.point) e.1 e.2.point
            (m ++ [(a, ⟨⟨txh, i⟩, output.value⟩)]) = none := by
        intro e he
        rw [find_entry_eq_none_iff]
        intro x hx
        rcases List.mem_append.1 hx with hxm | hxs
        · exact (find_entry_eq_none_iff _ _ _ _).1
            (h e (List.mem_cons_of_mem _ he)) x hxm
        · rcases List.mem_singleton.1 hxs with rfl
          rintro ⟨-, hpt⟩
          have hge := (output_entries_mem txh rest (i + 1) e he).2
          have hidx : e.2.point.index = i := by rw [← hpt]
          omega
      rw [do_index_outputs, hs]
      have hok : index_does_not_exist (fun v : output_info_type => v.point)
          a ⟨txh, i⟩ m = true := by
        simp [index_does_not_exist, hhead]
      simp only [hok, Bool.and_true]
      exact ih (i + 1) _ ok htail

theorem do_deindex_spends_roundtrip (txh : Nat)
    (l : List transaction_input_type) (i : Nat) (m : spends_multimap)
    (ok : Bool)
    (h : ∀ e ∈ spend_entries txh l i,
      find_entry (fun v => v.point) e.1 e.2.point m = none) :
    do_deindex_spends txh l i (m ++ spend_entries txh l i) ok = (m, ok) := by
  induction l generalizing i ok with
  | nil => simp [do_deindex_spends, spend_entries]
  | cons input rest ih =>
    cases hs : input.script with
    | none =>
      rw [spend_entries, hs] at h ⊢
      rw [do_deindex_spends, hs]
      exact ih (i + 1) ok h
    | some a =>
      simp only [spend_entries, hs] at h ⊢
      have hhead := h _ (List.mem_cons_self _ _)
      have hfind : find_entry (fun v : spend_info_type => v.point) a
          (⟨txh, i⟩ : Point)
          (m ++ (a, ⟨⟨txh, i⟩, input.previous_output⟩) ::
            spend_entries txh rest (i + 1)) = some m.length := by
        rw [find_entry_append _ _ _ _ _ hhead, find_entry,
          if_pos ⟨rfl, rfl⟩]
        simp
      have herase : (m ++ (a, ⟨⟨txh, i⟩, input.previous_output⟩) ::
          spend_entries txh rest (i + 1)).eraseIdx m.length =
          m ++ spend_entries txh rest (i + 1) :=
        eraseIdx_append_cons m _ _
      have hnone : find_entry (fun v : spend_info_type => v.point) a
          (⟨txh, i⟩ : Point) (m ++ spend_entries txh rest (i + 1)) = none := by
        rw [find_entry_eq_none_iff]
        intro x hx
        rcases List.mem_append.1 hx with hxm | hxs
        · exact (find_entry_eq_none_iff _ _ _ _).1 hhead x hxm
        · rintro ⟨-, hpt⟩
          have hge := (spend_entries_mem txh rest (i + 1) x hxs).2
          have hidx : x.2.point.index = i := by rw [hpt]
          omega
      simp only [do_deindex_spends, hs, hfind, herase]
      have hok : index_does_not_exist (fun v : spend_info_type => v.point)
          a ⟨txh, i⟩ (m ++ spend_entries txh rest (i + 1)) = true := by
        simp [index_does_not_exist, hnone]
      simp only [hok, Bool.and_true]
      exact ih (i + 1) ok fun e he => h e (List.mem_cons_of_mem _ he)

theorem do_deindex_outputs_roundtrip (txh : Nat)
    (l : List transaction_output_type) (i : Nat) (m : outputs_multimap)
    (ok : Bool)
    (h : ∀ e ∈ output_entries txh l i,
      find_entry (fun v => v.point) e.1 e.2.point m = none) :
    do_deindex_outputs txh l i (m ++ output_entries txh l i) ok = (m, ok) := by
  induction l generalizing i ok with
  | nil => simp [do_deindex_outputs, output_entries]
  | cons output rest ih =>
    cases hs : output.script with
    | none =>
      rw [output_entries, hs] at h ⊢
      rw [do_deindex_outputs, hs]
      exact ih (i + 1) ok h
    | some a =>
      simp only [output_entries, hs] at h ⊢
      have hhead := h _ (List.mem_cons_self _ _)
      have hfind : find_entry (fun v : output_info_type => v.point) a
          (⟨txh, i⟩ : Point)
          (m ++ (a, ⟨⟨txh, i⟩, output.value⟩) ::
            output_entries txh rest (i + 1)) = some m.length := by
        rw [find_entry_append _ _ _ _ _ hhead, find_entry,
          if_pos ⟨rfl, rfl⟩]
        simp
      have herase : (m ++ (a, ⟨⟨txh, i⟩, output.value⟩) ::
          output_entries txh rest (i + 1)).eraseIdx m.length =
          m ++ output_entries txh rest (i + 1) :=
        eraseIdx_append_cons m _ _
      have hnone : find_entry (fun v : output_info_type => v.point) a
          (⟨txh, i⟩ : Point) (m ++ output_entries txh rest (i + 1)) = none := by
        rw [find_entry_eq_none_iff]
        intro x hx
        rcases List.mem_append.1 hx with hxm | hxs
        · exact (find_entry_eq_none_iff _ _ _ _).1 hhead x hxm
        · rintro ⟨-, hpt⟩
          have hge := (output_entries_mem txh rest (i + 1) x hxs).2
          have hidx : x.2.point.index = i := by rw [hpt]
          omega
      simp only [do_deindex_outputs, hs, hfind, herase]
      have hok : index_does_not_exist (fun v : output_info_type => v.point)
          a ⟨txh, i⟩ (m ++ output_entries txh rest (i + 1)) = true := by
        simp [index_does_not_exist, hnone]
      simp only [hok, Bool.and_true]
      exact ih (i + 1) ok fun e he => h e (List.mem_cons_of_mem _ he)

/-! Helper lemmas about the merge step of `indexer_history_fetched`. -/

theorem getq_set_self (l : List β) (k : Nat) (r w : β)
    (h : l.get? k = some r) : (l.set k w).get? k = some w := by
  rw [List.get?_set_eq, h]
  rfl

theorem add_outputs_fst (history : List history_row)
    (outputs : List output_info_type) (ok : Bool) :
    (add_outputs history outputs ok).1 =
      history ++ outputs.map unconfirmed_row := by
  induction outputs generalizing history ok with
  | nil => simp [add_outputs]
  | cons o rest ih => simp [add_outputs, ih]

theorem mark_spend_row_eq_none (s : spend_info_type) (h : List history_row)
    (hm : matchIdx s h = none) : mark_spend_row s h = none := by
  induction h with
  | nil => rfl
  | cons row rest ih =>
    by_cases ho : row.output = s.previous_output
    · rw [matchIdx, if_pos ho] at hm
      cases hm
    · rw [matchIdx, if_neg ho, Option.map_eq_none'] at hm
      rw [mark_spend_row, if_neg ho, ih hm]
      rfl

theorem mark_spend_row_eq_some (s : spend_info_type) (h : List history_row)
    (k : Nat) (hm : matchIdx s h = some k) :
    ∃ r, h.get? k = some r ∧ r.output = s.previous_output ∧
      mark_spend_row s h =
        some (h.set k { r with spend := s.point, spend_height := 0 },
          decide (r.spend_height = max_height) &&
            decide (r.spend = (⟨null_hash, max_index⟩ : Point))) := by
  induction h generalizing k with
  | nil => cases hm
  | cons row rest ih =>
    by_cases ho : row.output = s.previous_output
    · rw [matchIdx, if_pos ho] at hm
      cases hm
      exact ⟨row, rfl, ho, by rw [mark_spend_row, if_pos ho]; rfl⟩
    · rw [matchIdx, if_neg ho] at hm
      cases hj : matchIdx s rest with
      | none => rw [hj] at hm; cases hm
      | some j =>
        rw [hj] at hm
        cases hm
        rcases ih j hj with ⟨r, hr, hro, hmark⟩
        refine ⟨r, hr, hro, ?_⟩
        rw [mark_spend_row, if_neg ho, hmark]
        rfl

theorem matchIdx_set_spend (s : spend_info_type) (h : List history_row)
    (k : Nat) (r w : history_row) (hr : h.get? k = some r)
    (hw : w.output = r.output) :
    matchIdx s (h.set k w) = matchIdx s h := by
  induction h generalizing k with
  | nil => simp
  | cons row rest ih =>
    cases k with
    | zero =>
      have : row = r := by
        have := hr
        simp [List.get?] at this
        exact this
      subst this
      rw [List.set]
      by_cases ho : row.output = s.previous_output
      · have hw' : w.output = s.previous_output := by rw [hw]; exact ho
        rw [matchIdx, if_pos hw', matchIdx, if_pos ho]
      · have hw' : ¬w.output = s.previous_output := by rw [hw]; exact ho
        rw [matchIdx, if_neg hw', matchIdx, if_neg ho]
    | succ j =>
      have hr' : rest.get? j = some r := hr
      rw [List.set]
      by_cases ho : row.output = s.previous_output
      · rw [matchIdx, if_pos ho, matchIdx, if_pos ho]
      · rw [matchIdx, if_neg ho, matchIdx, if_neg ho, ih j hr']

theorem countP_output_set (h : List history_row) (k : Nat)
    (r w : history_row) (p : output_point) (hr : h.get? k = some r)
    (hw : w.output = r.output) :
    (h.set k w).countP (fun row => decide (row.output = p)) =
      h.countP (fun row => decide (row.output = p)) := by
  induction h generalizing k with
  | nil => simp
  | cons row rest ih =>
    cases k with
    | zero =>
      have : row = r := by
        have := hr
        simp [List.get?] at this
        exact this
      subst this
      rw [List.set, List.countP_cons, List.countP_cons, hw]
    | succ j =>
      have hr' : rest.get? j = some r := hr
      rw [List.set, List.countP_cons, List.countP_cons, ih j hr']

theorem mark_spends_ok_false (h : List history_row)
    (spends : List spend_info_type) :
    (mark_spends h spends false).2 = false := by
  induction spends generalizing h with
  | nil => rfl
  | cons s rest ih =>
    rw [mark_spends]
    cases hm : mark_spend_row s h with
    | none => exact ih h
    | some r => simpa using ih r.1

theorem mark_spends_ok_of (h : List history_row)
    (spends : List spend_info_type) (ok : Bool)
    (hok : (mark_spends h spends ok).2 = true) : ok = true := by
  cases ok with
  | true => rfl
  | false => rw [mark_spends_ok_false] at hok; cases hok

theorem mark_spends_preserve (spends : List spend_info_type)
    (h : List history_row) (ok : Bool) (k : Nat) (r : history_row)
    (hk : h.get? k = some r)
    (hns : ∀ t ∈ spends, t.previous_output ≠ r.output) :
    (mark_spends h spends ok).1.get? k = some r := by
  induction spends generalizing h ok with
  | nil => exact hk
  | cons t rest ih =>
    rw [mark_spends]
    cases hm : mark_spend_row t h with
    | none => exact ih h _ hk fun u hu => hns u (List.mem_cons_of_mem _ hu)
    | some res =>
      cases hmi : matchIdx t h with
      | none => rw [mark_spend_row_eq_none t h hmi] at hm; cases hm
      | some k0 =>
        rcases mark_spend_row_eq_some t h k0 hmi with ⟨r0, hr0, hro0, hmark⟩
        rw [hmark] at hm
        cases hm
        have hkk : k0 ≠ k := by
          intro he
          subst he
          rw [hr0] at hk
          injection hk with hk
          subst hk
          exact hns t (List.mem_cons_self _ _) hro0.symm
        have hset : (h.set k0
            { r0 with spend := t.point, spend_height := 0 }).get? k =
            h.get? k := List.get?_set_ne _ _ hkk
        exact ih _ _ (by rw [hset]; exact hk) fun u hu =>
          hns u (List.mem_cons_of_mem _ hu)

theorem mark_spends_length (spends : List spend_info_type)
    (h : List history_row) (ok : Bool) :
    (mark_spends h spends ok).1.length = h.length := by
  induction spends generalizing h ok with
  | nil => rfl
  | cons s rest ih =>
    rw [mark_spends]
    cases hm : mark_spend_row s h with
    | none => exact ih h _
    | some res =>
      cases hmi : matchIdx s h with
      | none => rw [mark_spend_row_eq_none s h hmi] at hm; cases hm
      | some k0 =>
        rcases mark_spend_row_eq_some s h k0 hmi with ⟨r0, hr0, hro0, hmark⟩
        rw [hmark] at hm
        cases hm
        rw [ih _ _, List.length_set]

theorem mark_spends_fields (spends : List spend_info_type)
    (h : List history_row) (ok : Bool) (k : Nat) :
    ((mark_spends h spends ok).1.get? k).map
        (fun r => (r.output, r.output_height, r.value)) =
      (h.get? k).map (fun r => (r.output, r.output_height, r.value)) := by
  induction spends generalizing h ok with
  | nil => rfl
  | cons s rest ih =>
    rw [mark_spends]
    cases hm : mark_spend_row s h with
    | none => exact ih h _
    | some res =>
      cases hmi : matchIdx s h with
      | none => rw [mark_spend_row_eq_none s h hmi] at hm; cases hm
      | some k0 =>
        rcases mark_spend_row_eq_some s h k0 hmi with ⟨r0, hr0, hro0, hmark⟩
        rw [hmark] at hm
        cases hm
        rw [ih _ _]
        by_cases hkk : k0 = k
        · subst hkk
          rw [getq_set_self _ _ _ _ hr0, hr0]
          rfl
        · rw [List.get?_set_ne _ _ hkk]

theorem matchIdx_of_count_one (s : spend_info_type) :
    ∀ (h : List history_row) (k : Nat) (r : history_row),
    h.countP (fun row => decide (row.output = s.previous_output)) = 1 →
    h.get? k = some r → r.output = s.previous_output →
    matchIdx s h = some k := by
  intro h
  induction h with
  | nil => intro k r hc hk ho; cases hk
  | cons row rest ih =>
    intro k r hc hk ho
    by_cases hro : row.output = s.previous_output
    · rw [List.countP_cons, if_pos (by simpa using hro)] at hc
      have hzero : rest.countP
          (fun row => decide (row.output = s.previous_output)) = 0 := by omega
      cases k with
      | zero => rw [matchIdx, if_pos hro]
      | succ j =>
        have hr' : rest.get? j = some r := hk
        have hmem := List.get?_mem hr'
        have := List.countP_eq_zero.1 hzero r hmem
        simp [ho] at this
    · rw [List.countP_cons, if_neg (by simpa using hro)] at hc
      cases k with
      | zero =>
        have : row = r := by
          have := hk
          simp [List.get?] at this
          exact this
        subst this
        exact absurd ho hro
      | succ j =>
        have hr' : rest.get? j = some r := hk
        have hc' : rest.countP
            (fun row => decide (row.output = s.previous_output)) = 1 := by
          omega
        rw [matchIdx, if_neg hro, ih j r hc' hr' ho]
        rfl

/-- Master invariant of the "mark spends" loop, in a debug build (all
assertions held): the initial flag was true; a row already spent on entry
is delivered unchanged and no spend's scan lands on it; and no position is
written by more than one spend. -/
theorem mark_spends_master (spends : List spend_info_type) :
    ∀ (h : List history_row) (ok : Bool),
    (mark_spends h spends ok).2 = true →
    ok = true ∧
    (∀ k r, h.get? k = some r → r.spend_height ≠ max_height →
      (mark_spends h spends ok).1.get? k = some r ∧
      spends.countP (fun s => decide (matchIdx s h = some k)) = 0) ∧
    (∀ k, spends.countP (fun s => decide (matchIdx s h = some k)) ≤ 1) := by
  induction spends with
  | nil =>
    intro h ok hok
    exact ⟨hok, fun k r hk _ => ⟨hk, rfl⟩,
      fun k => by rw [List.countP_nil]; omega⟩
  | cons s rest ih =>
    intro h ok hok
    cases hm : mark_spend_row s h with
    | none =>
      rw [mark_spends, hm] at hok
      have := mark_spends_ok_of _ _ _ hok
      simp at this
    | some res =>
      cases hmi : matchIdx s h with
      | none => rw [mark_spend_row_eq_none s h hmi] at hm; cases hm
      | some k0 =>
        rcases mark_spend_row_eq_some s h k0 hmi with ⟨r0, hr0, hro0, hmark⟩
        have hres := hm.symm.trans hmark
        injection hres with hres
        subst hres
        have heq : mark_spends h (s :: rest) ok =
            mark_spends
              (h.set k0 { r0 with spend := s.point, spend_height := 0 }) rest
              (ok && (decide (r0.spend_height = max_height) &&
                decide (r0.spend = (⟨null_hash, max_index⟩ : Point)))) := by
          rw [mark_spends, hmark]
        rw [heq] at hok ⊢
        rcases ih _ _ hok with ⟨hab, ihb, ihc⟩
        rw [Bool.and_eq_true] at hab
        have hok0 : ok = true := hab.1
        have hb := hab.2
        rw [Bool.and_eq_true, decide_eq_true_eq, decide_eq_true_eq] at hb
        have hsh : r0.spend_height = max_height := hb.1
        have htrans : ∀ t k, (matchIdx t
            (h.set k0 { r0 with spend := s.point, spend_height := 0 }) =
              some k) ↔ (matchIdx t h = some k) := by
          intro t k
          rw [matchIdx_set_spend t h k0 r0
            { r0 with spend := s.point, spend_height := 0 } hr0 rfl]
        refine ⟨hok0, ?_, ?_⟩
        · intro k r hk hneq
          have hkk : k0 ≠ k := by
            intro he
            subst he
            rw [hr0] at hk
            injection hk with hk
            subst hk
            exact hneq hsh
          have hset : (h.set k0
              { r0 with spend := s.point, spend_height := 0 }).get? k =
              h.get? k := List.get?_set_ne _ _ hkk
          rcases ihb k r (by rw [hset]; exact hk) hneq with ⟨hpres, hcnt⟩
          refine ⟨hpres, ?_⟩
          rw [List.countP_cons]
          have hhead : ¬(matchIdx s h = some k) := by
            rw [hmi]
            intro hcon
            injection hcon with hcon
            exact hkk hcon
          rw [if_neg (by simpa using hhead)]
          have hcc : List.countP (fun t => decide (matchIdx t
              (h.set k0 { r0 with spend := s.point, spend_height := 0 }) =
                some k)) rest =
              List.countP (fun t => decide (matchIdx t h = some k)) rest :=
            List.countP_congr fun t _ => by simpa using htrans t k
          rw [← hcc]
          omega
        · intro k
          by_cases hkeq : k = k0
          · subst hkeq
            rw [List.countP_cons, if_pos (by simpa using hmi)]
            have hw : (h.set k { r0 with spend := s.point, spend_height := 0 }).get? k =
                some { r0 with spend := s.point, spend_height := 0 } :=
              getq_set_self _ _ _ _ hr0
            have hneq : ({ r0 with spend := s.point, spend_height := 0 } :
                history_row).spend_height ≠ max_height := by
              show (0 : Nat) ≠ max_height
              decide
            rcases ihb k _ hw hneq with ⟨-, hcnt⟩
            have hcc : List.countP (fun t => decide (matchIdx t
                (h.set k { r0 with spend := s.point, spend_height := 0 }) =
                  some k)) rest =
                List.countP (fun t => decide (matchIdx t h = some k)) rest :=
              List.countP_congr fun t _ => by simpa using htrans t k
            rw [← hcc]
            omega
          · rw [List.countP_cons]
            have hhead : ¬(matchIdx s h = some k) := by
              rw [hmi]
              intro hcon
              injection hcon with hcon
              exact hkeq hcon.symm
            rw [if_neg (by simpa using hhead)]
            have hle := ihc k
            have hcc : List.countP (fun t => decide (matchIdx t
                (h.set k0 { r0 with spend := s.point, spend_height := 0 }) =
                  some k)) rest =
                List.countP (fun t => decide (matchIdx t h = some k)) rest :=
              List.countP_congr fun t _ => by simpa using htrans t k
            rw [← hcc]
            omega

/-- Master lemma for spend attachment: under pairwise-distinct
`previous_output`s, a spend whose `previous_output` matches exactly one
row's `output` gets exactly that row rewritten to carry its input point. -/
theorem mark_spends_c3 (spends : List spend_info_type) :
    ∀ (h : List history_row) (ok : Bool) (s : spend_info_type), s ∈ spends →
    List.Pairwise (fun a b => a.previous_output ≠ b.previous_output) spends →
    h.countP (fun row => decide (row.output = s.previous_output)) = 1 →
    ∀ k r, h.get? k = some r → r.output = s.previous_output →
    (mark_spends h spends ok).1.get? k =
      some { r with spend := s.point, spend_height := 0 } := by
  induction spends with
  | nil => intro h ok s hs; cases hs
  | cons t rest ih =>
    intro h ok s hs hpw hc k r hk hro
    rcases List.pairwise_cons.1 hpw with ⟨hhead, htail⟩
    rcases List.mem_cons.1 hs with rfl | hs'
    · have hmi : matchIdx s h = some k := matchIdx_of_count_one s h k r hc hk hro
      rcases mark_spend_row_eq_some s h k hmi with ⟨r', hr', hro', hmark⟩
      rw [hk] at hr'
      injection hr' with hr'
      subst hr'
      have heq : mark_spends h (s :: rest) ok =
          mark_spends
            (h.set k { r with spend := s.point, spend_height := 0 }) rest
            (ok && (decide (r.spend_height = max_height) &&
              decide (r.spend = (⟨null_hash, max_index⟩ : Point)))) := by
        rw [mark_spends, hmark]
      rw [heq]
      exact mark_spends_preserve rest _ _ k _ (getq_set_self _ _ _ _ hk)
        fun u hu => by
          show u.previous_output ≠ r.output
          rw [hro]
          exact (hhead u hu).symm
    · have hts : t.previous_output ≠ s.previous_output := hhead s hs'
      cases hm : mark_spend_row t h with
      | none =>
        have heq : mark_spends h (t :: rest) ok =
            mark_spends h rest (ok && false) := by
          rw [mark_spends, hm]
        rw [heq]
        exact ih h _ s hs' htail hc k r hk hro
      | some res =>
        cases hmi : matchIdx t h with
        | none => rw [mark_spend_row_eq_none t h hmi] at hm; cases hm
        | some k0 =>
          rcases mark_spend_row_eq_some t h k0 hmi with ⟨r0, hr0, hro0, hmark⟩
          have hres := hm.symm.trans hmark
          injection hres with hres
          subst hres
          have heq : mark_spends h (t :: rest) ok =
              mark_spends
                (h.set k0 { r0 with spend := t.point, spend_height := 0 }) rest
                (ok && (decide (r0.spend_height = max_height) &&
                  decide (r0.spend = (⟨null_hash, max_index⟩ : Point)))) := by
            rw [mark_spends, hmark]
          rw [heq]
          have hkk : k0 ≠ k := by
            intro he
            subst he
            rw [hr0] at hk
            injection hk with hk
            subst hk
            exact hts (hro0.symm.trans hro)
          refine ih _ _ s hs' htail ?_ k r ?_ hro
          · rw [countP_output_set h k0 r0
              { r0 with spend := t.point, spend_height := 0 }
              s.previous_output hr0 rfl]
            exact hc
          · rw [List.get?_set_ne _ _ hkk]
            exact hk

/-! Claim theorems. -/

/-- C1 (refutation): at a state holding one spend and one output for
address 7, `do_query` delivers the outputs list in the handler's second
argument position and the spends list in the third, whereas the declared
`query_handler` signature in `transaction_indexer.hpp` (and the claim) put
the spends list second and the outputs list third; the two lists are
distinct data, as their point sets differ. -/
theorem spec_c1_bug :
    (do_query 7 ⟨[(7, ⟨⟨1, 0⟩, ⟨9, 0⟩⟩)], [(7, ⟨⟨2, 0⟩, 5⟩)]⟩).arg2 =
      [⟨⟨2, 0⟩, 5⟩] ∧
    (do_query 7 ⟨[(7, ⟨⟨1, 0⟩, ⟨9, 0⟩⟩)], [(7, ⟨⟨2, 0⟩, 5⟩)]⟩).arg3 =
      [⟨⟨1, 0⟩, ⟨9, 0⟩⟩] ∧
    ([⟨⟨2, 0⟩, 5⟩] : List output_info_type).map (fun v => v.point) ≠
      ([⟨⟨1, 0⟩, ⟨9, 0⟩⟩] : List spend_info_type).map (fun v => v.point) := by
  decide

/-- C2 (refutation): the bodies of `do_index` and `do_deindex` never invoke
the completion handler passed to `index` / `deindex` — no call's outcome,
success or failure, is ever delivered through it (failures are signalled
only by the fatal `BITCOIN_ASSERT` macros). -/
theorem spec_c2_bug (tx : transaction_type) (st : indexer_state) :
    (do_index tx st).handler_calls = [] ∧
    (do_deindex tx st).handler_calls = [] :=
  ⟨rfl, rfl⟩

/-- C3: an unconfirmed spend whose `previous_output` matches exactly one
row of the accumulated list (confirmed history plus rows added from the
unconfirmed outputs) gets exactly that row updated: `spend` becomes the
spend's input point and `spend_height` becomes 0, the other fields
unchanged (stated with pairwise-distinct `previous_output`s so that "the
row claimed by that spend" is well defined). -/
theorem spec_c3 (outputs : List output_info_type)
    (spends : List spend_info_type) (history : List history_row)
    (s : spend_info_type)
    (hpw : List.Pairwise
      (fun a b => a.previous_output ≠ b.previous_output) spends)
    (hs : s ∈ spends)
    (huniq : (add_outputs history outputs true).1.countP
      (fun row => decide (row.output = s.previous_output)) = 1)
    (k : Nat) (r : history_row)
    (hk : (add_outputs history outputs true).1.get? k = some r)
    (hro : r.output = s.previous_output) :
    (indexer_history_fetched 0 outputs spends history).history.get? k =
      some { r with spend := s.point, spend_height := 0 } := by
  have hunf : (indexer_history_fetched 0 outputs spends history).history =
      (mark_spends (add_outputs history outputs true).1 spends
        (add_outputs history outputs true).2).1 := by
    simp [indexer_history_fetched]
  rw [hunf]
  exact mark_spends_c3 spends _ _ s hs hpw huniq k r hk hro

/-- Witness for C3: the spec's end-to-end scenario — one confirmed unspent
output `(H1, 0)` at height 100 with value 500, one unconfirmed spend
`(H2, 0) -> (H1, 0)`; the merged row carries `spend = (H2, 0)` and
`spend_height = 0`. -/
theorem spec_c3_witness :
    (indexer_history_fetched 0 [] [⟨⟨2, 0⟩, ⟨1, 0⟩⟩]
        [⟨⟨1, 0⟩, 100, 500, ⟨0, max_index⟩, max_height⟩]).history.get? 0 =
      some ⟨⟨1, 0⟩, 100, 500, ⟨2, 0⟩, 0⟩ :=
  spec_c3 [] [⟨⟨2, 0⟩, ⟨1, 0⟩⟩]
    [⟨⟨1, 0⟩, 100, 500, ⟨0, max_index⟩, max_height⟩] ⟨⟨2, 0⟩, ⟨1, 0⟩⟩
    (by decide) (by decide) (by decide) 0
    ⟨⟨1, 0⟩, 100, 500, ⟨0, max_index⟩, max_height⟩ (by decide) (by decide)

/-- C4: each unconfirmed output produces, in the merge result, a row with
its point, `output_height = 0`, its value, the sentinel spend
`(null_hash, max_index)` and `spend_height = max_height`, provided no
unconfirmed spend consumes that output point. -/
theorem spec_c4 (outputs : List output_info_type)
    (spends : List spend_info_type) (history : List history_row)
    (o : output_info_type) (ho : o ∈ outputs)
    (hns : ∀ s ∈ spends, s.previous_output ≠ o.point) :
    unconfirmed_row o ∈
      (indexer_history_fetched 0 outputs spends history).history := by
  have hunf : (indexer_history_fetched 0 outputs spends history).history =
      (mark_spends (add_outputs history outputs true).1 spends
        (add_outputs history outputs true).2).1 := by
    simp [indexer_history_fetched]
  rw [hunf]
  have hmem : unconfirmed_row o ∈ (add_outputs history outputs true).1 := by
    rw [add_outputs_fst]
    exact List.mem_append_right _ (List.mem_map_of_mem _ ho)
  rcases List.mem_iff_get?.1 hmem with ⟨k, hk⟩
  have hpres := mark_spends_preserve spends _
    (add_outputs history outputs true).2 k _ hk
    (fun t ht => by
      show t.previous_output ≠ (unconfirmed_row o).output
      exact hns t ht)
  exact List.get?_mem hpres

/-- Witness for C4: the spec's second end-to-end scenario — no confirmed
history, one unconfirmed output `(H3, 1)` of value 250 and no spends. -/
theorem spec_c4_witness :
    unconfirmed_row ⟨⟨3, 1⟩, 250⟩ ∈
      (indexer_history_fetched 0 [⟨⟨3, 1⟩, 250⟩] [] []).history :=
  spec_c4 [⟨⟨3, 1⟩, 250⟩] [] [] ⟨⟨3, 1⟩, 250⟩ (by decide) (by decide)

/-- C5 (refutation): a spend referencing an output point absent from both
the confirmed rows and the unconfirmed outputs does NOT fail the merge
with an error: the `found` assertion fails (`assertOk = false`, so a debug
build aborts before delivering anything), while the delivered error code
is 0 (success) and the spend is silently dropped; no `MergeInconsistency`
error value exists anywhere in the code. -/
theorem spec_c5_bug :
    indexer_history_fetched 0 [] [⟨⟨2, 0⟩, ⟨9, 0⟩⟩] [] =
      ⟨false, 0, []⟩ := by
  decide

/-- C6 (refutation): indexing the same transaction twice does not fail
with a `DuplicateIndex` error and does not leave the maps unchanged: the
duplicate-point assertion fails (`assertOk = false`, a debug build
aborts), the release-build state gains a duplicate entry, and no handler
invocation delivers any error. -/
theorem spec_c6_bug :
    (do_index ⟨1, [⟨some 7, ⟨9, 0⟩⟩], []⟩ ⟨[], []⟩).state =
      ⟨[(7, ⟨⟨1, 0⟩, ⟨9, 0⟩⟩)], []⟩ ∧
    (do_index ⟨1, [⟨some 7, ⟨9, 0⟩⟩], []⟩
      ⟨[(7, ⟨⟨1, 0⟩, ⟨9, 0⟩⟩)], []⟩).assertOk = false ∧
    (do_index ⟨1, [⟨some 7, ⟨9, 0⟩⟩], []⟩
        ⟨[(7, ⟨⟨1, 0⟩, ⟨9, 0⟩⟩)], []⟩).state ≠
      ⟨[(7, ⟨⟨1, 0⟩, ⟨9, 0⟩⟩)], []⟩ ∧
    (do_index ⟨1, [⟨some 7, ⟨9, 0⟩⟩], []⟩
      ⟨[(7, ⟨⟨1, 0⟩, ⟨9, 0⟩⟩)], []⟩).handler_calls = [] := by
  decide

/-- C7 (refutation): deindexing a never-indexed transaction does not fail
with a `MissingIndexEntry` error: the `it != end` assertions fail
(`assertOk = false`, a debug build aborts; a release build performs
`erase(map.end())`, undefined behaviour, modelled as a no-op), and no
handler invocation delivers any error. -/
theorem spec_c7_bug :
    do_deindex ⟨1, [⟨some 7, ⟨9, 0⟩⟩], [⟨some 8, 300⟩]⟩ ⟨[], []⟩ =
      ⟨⟨[], []⟩, false, []⟩ := by
  decide

/-- C8: indexing a not-yet-indexed transaction and then deindexing it
restores the original state exactly — all assertions hold along the way
and every address's query result is as before the `index` call. -/
theorem spec_c8 (tx : transaction_type) (st : indexer_state)
    (hs : ∀ e ∈ spend_entries tx.hash tx.inputs 0,
      find_entry (fun v => v.point) e.1 e.2.point st.spends_map_ = none)
    (ho : ∀ e ∈ output_entries tx.hash tx.outputs 0,
      find_entry (fun v => v.point) e.1 e.2.point st.outputs_map_ = none) :
    (do_index tx st).assertOk = true ∧
    (do_deindex tx (do_index tx st).state).assertOk = true ∧
    (do_deindex tx (do_index tx st).state).state = st ∧
    ∀ payaddr, do_query payaddr (do_deindex tx (do_index tx st).state).state =
      do_query payaddr st := by
  obtain ⟨sm, om⟩ := st
  have hssnd := do_index_spends_snd tx.hash tx.inputs 0 sm true hs
  have hidx : do_index tx ⟨sm, om⟩ =
      ⟨⟨sm ++ spend_entries tx.hash tx.inputs 0,
        om ++ output_entries tx.hash tx.outputs 0⟩, true, []⟩ := by
    simp only [do_index]
    rw [hssnd, do_index_spends_fst, do_index_outputs_fst,
      do_index_outputs_snd tx.hash tx.outputs 0 om true ho]
  have hdeidx : do_deindex tx
      ⟨sm ++ spend_entries tx.hash tx.inputs 0,
        om ++ output_entries tx.hash tx.outputs 0⟩ =
      ⟨⟨sm, om⟩, true, []⟩ := by
    simp only [do_deindex]
    rw [do_deindex_spends_roundtrip tx.hash tx.inputs 0 sm true hs]
    rw [do_deindex_outputs_roundtrip tx.hash tx.outputs 0 om true ho]
  rw [hidx, hdeidx]
  exact ⟨rfl, rfl, rfl, fun _ => rfl⟩

/-- Witness for C8: a transaction with one address-bearing input and one
address-bearing output, indexed into the empty state and deindexed again,
restoring the empty state and the empty query result for address 7. -/
theorem spec_c8_witness :
    (do_deindex ⟨1, [⟨some 7, ⟨9, 0⟩⟩], [⟨some 8, 300⟩]⟩
        (do_index ⟨1, [⟨some 7, ⟨9, 0⟩⟩], [⟨some 8, 300⟩]⟩
          ⟨[], []⟩).state).state = ⟨[], []⟩ ∧
    do_query 7 (do_deindex ⟨1, [⟨some 7, ⟨9, 0⟩⟩], [⟨some 8, 300⟩]⟩
        (do_index ⟨1, [⟨some 7, ⟨9, 0⟩⟩], [⟨some 8, 300⟩]⟩
          ⟨[], []⟩).state).state = do_query 7 ⟨[], []⟩ :=
  ⟨(spec_c8 ⟨1, [⟨some 7, ⟨9, 0⟩⟩], [⟨some 8, 300⟩]⟩ ⟨[], []⟩
      (by decide) (by decide)).2.2.1,
   (spec_c8 ⟨1, [⟨some 7, ⟨9, 0⟩⟩], [⟨some 8, 300⟩]⟩ ⟨[], []⟩
      (by decide) (by decide)).2.2.2 7⟩

/-- C9: in a merge run in which every assertion held (the only runs a
debug build completes), a row of the accumulated list whose spend was
already set (`spend_height ≠ max_height`) is delivered unchanged — never
assigned a spend a second time — and no position of the accumulated list
is written by more than one spend (each spend's scan lands on the first
row matching its `previous_output`, and those positions are pairwise
distinct): the spend fields of every row are written at most once. -/
theorem spec_c9 (outputs : List output_info_type)
    (spends : List spend_info_type) (history : List history_row)
    (hok : (indexer_history_fetched 0 outputs spends history).assertOk =
      true) :
    (∀ k r, (add_outputs history outputs true).1.get? k = some r →
      r.spend_height ≠ max_height →
      (indexer_history_fetched 0 outputs spends history).history.get? k =
        some r) ∧
    (∀ k, spends.countP (fun s =>
      decide (matchIdx s (add_outputs history outputs true).1 = some k)) ≤
        1) := by
  have hunf : indexer_history_fetched 0 outputs spends history =
      ⟨(mark_spends (add_outputs history outputs true).1 spends
          (add_outputs history outputs true).2).2, 0,
        (mark_spends (add_outputs history outputs true).1 spends
          (add_outputs history outputs true).2).1⟩ := by
    simp [indexer_history_fetched]
  rw [hunf] at hok ⊢
  rcases mark_spends_master spends _ _ hok with ⟨-, hb, hc⟩
  exact ⟨fun k r hk hne => (hb k r hk hne).1, hc⟩

/-- Witness for C9: a confirmed already-spent row (height-50 spend) next
to a confirmed unspent row consumed by one unconfirmed spend; the merge's
assertions all hold, the already-spent row is delivered unchanged, and
position 0 is written by no spend. -/
theorem spec_c9_witness :
    (indexer_history_fetched 0 [] [⟨⟨3, 0⟩, ⟨2, 0⟩⟩]
      [⟨⟨1, 0⟩, 100, 500, ⟨5, 0⟩, 50⟩,
        ⟨⟨2, 0⟩, 101, 400, ⟨0, max_index⟩, max_height⟩]).assertOk = true ∧
    (indexer_history_fetched 0 [] [⟨⟨3, 0⟩, ⟨2, 0⟩⟩]
      [⟨⟨1, 0⟩, 100, 500, ⟨5, 0⟩, 50⟩,
        ⟨⟨2, 0⟩, 101, 400, ⟨0, max_index⟩, max_height⟩]).history.get? 0 =
      some ⟨⟨1, 0⟩, 100, 500, ⟨5, 0⟩, 50⟩ ∧
    List.countP (fun s => decide (matchIdx s
      (add_outputs [⟨⟨1, 0⟩, 100, 500, ⟨5, 0⟩, 50⟩,
        ⟨⟨2, 0⟩, 101, 400, ⟨0, max_index⟩, max_height⟩] [] true).1 =
          some 0)) [⟨⟨3, 0⟩, ⟨2, 0⟩⟩] ≤ 1 :=
  ⟨by decide,
   (spec_c9 [] [⟨⟨3, 0⟩, ⟨2, 0⟩⟩]
      [⟨⟨1, 0⟩, 100, 500, ⟨5, 0⟩, 50⟩,
        ⟨⟨2, 0⟩, 101, 400, ⟨0, max_index⟩, max_height⟩] (by decide)).1 0
      ⟨⟨1, 0⟩, 100, 500, ⟨5, 0⟩, 50⟩ (by decide) (by decide),
   (spec_c9 [] [⟨⟨3, 0⟩, ⟨2, 0⟩⟩]
      [⟨⟨1, 0⟩, 100, 500, ⟨5, 0⟩, 50⟩,
        ⟨⟨2, 0⟩, 101, 400, ⟨0, max_index⟩, max_height⟩] (by decide)).2 0⟩

/-- C10: the merge never drops or reorders the confirmed input rows — the
result has exactly the confirmed rows (positionally intact) plus one
appended row per unconfirmed output, and each confirmed row's `output`,
`output_height` and `value` fields reappear unchanged at its position
(only `spend`/`spend_height` can differ). -/
theorem spec_c10 (outputs : List output_info_type)
    (spends : List spend_info_type) (history : List history_row) :
    (indexer_history_fetched 0 outputs spends history).history.length =
      history.length + outputs.length ∧
    ∀ k r, history.get? k = some r →
      ∃ r', (indexer_history_fetched 0 outputs spends
          history).history.get? k = some r' ∧
        r'.output = r.output ∧ r'.output_height = r.output_height ∧
        r'.value = r.value := by
  have hunf : (indexer_history_fetched 0 outputs spends history).history =
      (mark_spends (add_outputs history outputs true).1 spends
        (add_outputs history outputs true).2).1 := by
    simp [indexer_history_fetched]
  rw [hunf]
  constructor
  · rw [mark_spends_length, add_outputs_fst, List.length_append,
      List.length_map]
  · intro k r hk
    rcases List.get?_eq_some.1 hk with ⟨hlt, -⟩
    have h1 : (add_outputs history outputs true).1.get? k = some r := by
      rw [add_outputs_fst, List.get?_append hlt]
      exact hk
    have hf := mark_spends_fields spends (add_outputs history outputs true).1
      (add_outputs history outputs true).2 k
    rw [h1] at hf
    cases hres : (mark_spends (add_outputs history outputs true).1 spends
        (add_outputs history outputs true).2).1.get? k with
    | none => rw [hres] at hf; cases hf
    | some r' =>
      rw [hres] at hf
      injection hf with hf
      simp only [Prod.mk.injEq] at hf
      exact ⟨r', rfl, hf.1, hf.2.1, hf.2.2⟩

/-- Witness for C10: one confirmed row and one unconfirmed output — the
result has length 2 and the confirmed row's output, height and value are
intact at position 0. -/
theorem spec_c10_witness :
    (indexer_history_fetched 0 [⟨⟨3, 1⟩, 250⟩] []
      [⟨⟨1, 0⟩, 100, 500, ⟨0, max_index⟩, max_height⟩]).history.length =
      1 + 1 ∧
    (∃ r', (indexer_history_fetched 0 [⟨⟨3, 1⟩, 250⟩] []
        [⟨⟨1, 0⟩, 100, 500, ⟨0, max_index⟩, max_height⟩]).history.get? 0 =
        some r' ∧
      r'.output = (⟨1, 0⟩ : Point) ∧ r'.output_height = 100 ∧
      r'.value = 500) :=
  ⟨(spec_c10 [⟨⟨3, 1⟩, 250⟩] []
      [⟨⟨1, 0⟩, 100, 500, ⟨0, max_index⟩, max_height⟩]).1,
   (spec_c10 [⟨⟨3, 1⟩, 250⟩] []
      [⟨⟨1, 0⟩, 100, 500, ⟨0, max_index⟩, max_height⟩]).2 0
      ⟨⟨1, 0⟩, 100, 500, ⟨0, max_index⟩, max_height⟩ (by decide)⟩

end LibBitcoin
